import Mathlib

/-!
Shallow embedding of the SYCL runtime kernel/program build cache
(`sycl/source/detail/kernel_program_cache.hpp`).

Pointers of the C++ code are modelled as `Option Nat` (with `none` for
`nullptr`); `std::map` and `std::multimap` are modelled as association
lists whose lookup returns the first binding; `std::map::emplace` inserts
only when the key is absent.  Mutex acquisitions performed by each member
function are recorded as explicit static traces so that locking claims can
be settled against the source.
-/

namespace KernelProgramCache

/-- Serialized module bytes (`SerializedObj`, a byte vector). -/
abbrev SerializedObj := List Nat

/-- Backend device handle (`RT::PiDevice`). -/
abbrev PiDevice := Nat

/-- Backend program handle (`RT::PiProgram`), a possibly-null pointer. -/
abbrev PiProgram := Option Nat

/-- Backend kernel handle (`RT::PiKernel`), a possibly-null pointer. -/
abbrev PiKernel := Option Nat

/-- `const KernelArgMask *`, a possibly-null pointer. -/
abbrev ArgMaskPtr := Option Nat

/-- `std::mutex *`, a possibly-null pointer. -/
abbrev MutexPtr := Option Nat

/-- `OSModuleHandle` (an integer module handle within the process). -/
abbrev OSModuleHandle := Int

/-- Build error data (`struct BuildError`): message and a `pi_int32` code. -/
structure BuildError where
  Msg : String
  Code : Int
deriving DecidableEq

/-- `BuildError::isFilledIn()`: true exactly when the message is non-empty. -/
def BuildError.isFilledIn (e : BuildError) : Bool := !e.Msg.isEmpty

/-- The state of a build (`enum BuildState`). -/
inductive BuildState where
  | BS_InProgress
  | BS_Done
  | BS_Failed
deriving DecidableEq

export BuildState (BS_InProgress BS_Done BS_Failed)

/-- A cache entry (`template <typename T> struct BuildResult`).  `Ptr` models
the `std::atomic<T *>` ready pointer with `none` for `nullptr`; the
per-entry condition variable and mutex are modelled separately by
`condVarWaitLoop`. -/
structure BuildResult (T : Type) where
  Ptr : Option T
  Val : T
  State : BuildState
  Error : BuildError
deriving DecidableEq

/-- The `BuildResult(T *P, BuildState S)` constructor: sets the pointer and
state, zeroes the error, and leaves `Val` default-initialized. -/
def BuildResult.make {T : Type} [Inhabited T] (P : Option T) (S : BuildState) :
    BuildResult T :=
  { Ptr := P, Val := default, State := S, Error := { Msg := "", Code := 0 } }

/-- Association-list model of `std::map` lookup (`find`): first binding wins. -/
def mapFind {K V : Type} [DecidableEq K] : List (K × V) → K → Option V
  | [], _ => none
  | (k0, v0) :: rest, k => if k0 = k then some v0 else mapFind rest k

/-- Association-list model of `std::map::emplace`: inserts only when the key
is absent; returns the updated map, the entry now mapped by the key, and
whether an insertion took place. -/
def mapEmplace {K V : Type} [DecidableEq K] (m : List (K × V)) (k : K) (v : V) :
    List (K × V) × V × Bool :=
  match mapFind m k with
  | some v0 => (m, v0, false)
  | none => ((k, v) :: m, v, true)

/-- Association-list model of `std::map::operator[]` assignment: replaces the
first binding of the key, or inserts one when the key is absent. -/
def mapSet {K V : Type} [DecidableEq K] : List (K × V) → K → V → List (K × V)
  | [], k, v => [(k, v)]
  | (k0, v0) :: rest, k, v =>
      if k0 = k then (k, v) :: rest else (k0, v0) :: mapSet rest k v

/-- `ProgramCacheKeyT = pair(pair(SerializedObj, uintptr_t),
pair(PiDevice, string))`: (serialized module bytes, module identity token),
(target device, build-options string). -/
abbrev ProgramCacheKeyT := (SerializedObj × Nat) × (PiDevice × String)

/-- `CommonProgramKeyT = pair(uintptr_t, PiDevice)`: (module identity token,
target device). -/
abbrev CommonProgramKeyT := Nat × PiDevice

/-- `ProgramWithBuildStateT = BuildResult<RT::PiProgram>`. -/
abbrev ProgramWithBuildStateT := BuildResult PiProgram

/-- `struct ProgramCache`: the program map plus the common-key multimap. -/
structure ProgramCache where
  Cache : List (ProgramCacheKeyT × ProgramWithBuildStateT)
  KeyMap : List (CommonProgramKeyT × ProgramCacheKeyT)
deriving DecidableEq

/-- `ProgramCache::size()`. -/
def ProgramCache.size (c : ProgramCache) : Nat := c.Cache.length

/-- A default-constructed `ProgramCache`. -/
def ProgramCache.empty : ProgramCache := { Cache := [], KeyMap := [] }

/-- `KernelArgMaskPairT = pair(RT::PiKernel, const KernelArgMask *)`. -/
abbrev KernelArgMaskPairT := PiKernel × ArgMaskPtr

/-- `KernelByNameT = map(string, BuildResult<KernelArgMaskPairT>)`. -/
abbrev KernelByNameT := List (String × BuildResult KernelArgMaskPairT)

/-- `KernelCacheT = map(RT::PiProgram, KernelByNameT)`. -/
abbrev KernelCacheT := List (PiProgram × KernelByNameT)

/-- `KernelFastCacheKeyT = tuple(SerializedObj, OSModuleHandle, RT::PiDevice,
string, string)`. -/
abbrev KernelFastCacheKeyT :=
  SerializedObj × OSModuleHandle × PiDevice × String × String

/-- `KernelFastCacheValT = tuple(RT::PiKernel, std::mutex *,
const KernelArgMask *, RT::PiProgram)`. -/
abbrev KernelFastCacheValT := PiKernel × MutexPtr × ArgMaskPtr × PiProgram

/-- `KernelFastCacheT = map(KernelFastCacheKeyT, KernelFastCacheValT)`. -/
abbrev KernelFastCacheT := List (KernelFastCacheKeyT × KernelFastCacheValT)

/-- The fresh entry `BuildResult(nullptr, BS_InProgress)` emplaced by
`getOrInsertProgram`. -/
def freshProgramEntry : ProgramWithBuildStateT :=
  BuildResult.make none BS_InProgress

/-- The fresh entry `BuildResult(nullptr, BS_InProgress)` emplaced by
`getOrInsertKernel`. -/
def freshKernelEntry : BuildResult KernelArgMaskPairT :=
  BuildResult.make none BS_InProgress

/-- The common key computed inside `getOrInsertProgram`:
`make_pair(CacheKey.first.second, CacheKey.second.first)`, i.e.
(module identity token, target device). -/
def progCommonKey (CacheKey : ProgramCacheKeyT) : CommonProgramKeyT :=
  (CacheKey.1.2, CacheKey.2.1)

/-- `KernelProgramCache::getOrInsertProgram`: under the program-cache mutex,
emplace `(CacheKey, BuildResult(nullptr, BS_InProgress))`; on fresh
insertion also record `(common key, full key)` in `KeyMap`; return the
entry together with the insertion flag. -/
def getOrInsertProgram (c : ProgramCache) (CacheKey : ProgramCacheKeyT) :
    ProgramCache × ProgramWithBuildStateT × Bool :=
  let Inserted := mapEmplace c.Cache CacheKey freshProgramEntry
  if Inserted.2.2 then
    ({ Cache := Inserted.1,
       KeyMap := (progCommonKey CacheKey, CacheKey) :: c.KeyMap },
     Inserted.2.1, true)
  else
    ({ Cache := Inserted.1, KeyMap := c.KeyMap }, Inserted.2.1, false)

/-- `KernelProgramCache::getOrInsertKernel`: under the kernel-cache mutex,
index the per-program map with `operator[]` (default-constructing it when
absent) and emplace `(KernelName, BuildResult(nullptr, BS_InProgress))`. -/
def getOrInsertKernel (kc : KernelCacheT) (Program : PiProgram)
    (KernelName : String) :
    KernelCacheT × BuildResult KernelArgMaskPairT × Bool :=
  let Cache := (mapFind kc Program).getD []
  let Inserted := mapEmplace Cache KernelName freshKernelEntry
  (mapSet kc Program Inserted.1, Inserted.2.1, Inserted.2.2)

/-- `std::condition_variable::wait(Lock, Pred)` as called by
`waitUntilBuilt(BR, Pred)`: the predicate is checked under the lock before
first sleeping and re-checked under the lock after every wakeup, and the
wait returns at the first check where it holds.  The value observed at each
successive check is drawn from `wakeups`; the result pairs the number of
sleeps performed with the value at which the predicate held (`none` when
the finite observation sequence is exhausted while still blocked). -/
def condVarWaitLoop {α : Type} (Pred : α → Bool) : α → List α → Nat × Option α
  | a, [] => if Pred a then (0, some a) else (1, none)
  | a, b :: rest =>
      if Pred a then (0, some a)
      else
        let r := condVarWaitLoop Pred b rest
        (r.1 + 1, r.2)

/-- The predicate overload `waitUntilBuilt(BuildResult&, Predicate)`. -/
def waitUntilBuiltPred {T : Type} (BR : BuildResult T)
    (Pred : BuildResult T → Bool) (wakeups : List (BuildResult T)) :
    Nat × Option (BuildResult T) :=
  condVarWaitLoop Pred BR wakeups

/-- The wait predicate used by `waitUntilBuilt<ExceptionT>`:
`State == BS_Done || State == BS_Failed`. -/
def terminalStatePred {T : Type} (BR : BuildResult T) : Bool :=
  BR.State == BS_Done || BR.State == BS_Failed

/-- The post-wait behavior of `waitUntilBuilt<ExceptionT>` on an entry whose
wait predicate holds: when `Error.isFilledIn()`, throw
`ExceptionT(Error.Msg, Error.Code)`; otherwise return `Ptr.load()`. -/
def waitUntilBuilt {T : Type} (BR : BuildResult T) :
    Except (String × Int) (Option T) :=
  if BR.Error.isFilledIn then Except.error (BR.Error.Msg, BR.Error.Code)
  else Except.ok BR.Ptr

/-- `KernelProgramCache::tryToGetKernelFast`: under the fast-cache mutex,
return the mapped tuple when the key is present, and the all-null tuple
`make_tuple(nullptr, nullptr, nullptr, nullptr)` otherwise. -/
def tryToGetKernelFast (fc : KernelFastCacheT) (CacheKey : KernelFastCacheKeyT) :
    KernelFastCacheValT :=
  match mapFind fc CacheKey with
  | some v => v
  | none => (none, none, none, none)

/-- `KernelProgramCache::saveKernel`: under the fast-cache mutex, emplace
`(CacheKey, CacheVal)`; when the key is already mapped no insertion takes
place and the new value is discarded. -/
def saveKernel (fc : KernelFastCacheT) (CacheKey : KernelFastCacheKeyT)
    (CacheVal : KernelFastCacheValT) : KernelFastCacheT :=
  (mapEmplace fc CacheKey CacheVal).1

/-- The whole cache object's data members. -/
structure CacheState where
  MCachedPrograms : ProgramCache
  MKernelsPerProgramCache : KernelCacheT
  MKernelFastCache : KernelFastCacheT

/-- `KernelProgramCache::reset()`: reassigns all three subcaches to
default-constructed (empty) containers. -/
def reset (_s : CacheState) : CacheState :=
  { MCachedPrograms := ProgramCache.empty,
    MKernelsPerProgramCache := [],
    MKernelFastCache := [] }

/-- The three cache-level mutex data members. -/
inductive CacheMutex where
  | MProgramCacheMutex
  | MKernelsPerProgramCacheMutex
  | MKernelFastCacheMutex
deriving DecidableEq

/-- Mutexes acquired by `getOrInsertProgram` (via `acquireCachedPrograms`). -/
def getOrInsertProgramLocks : List CacheMutex := [CacheMutex.MProgramCacheMutex]

/-- Mutexes acquired by `getOrInsertKernel`
(via `acquireKernelsPerProgramCache`). -/
def getOrInsertKernelLocks : List CacheMutex :=
  [CacheMutex.MKernelsPerProgramCacheMutex]

/-- Mutexes acquired by `tryToGetKernelFast`. -/
def tryToGetKernelFastLocks : List CacheMutex :=
  [CacheMutex.MKernelFastCacheMutex]

/-- Mutexes acquired by `saveKernel`. -/
def saveKernelLocks : List CacheMutex := [CacheMutex.MKernelFastCacheMutex]

/-- Mutexes acquired by `reset()`: the body performs the three reassignments
with no lock guard of any kind. -/
def resetLocks : List CacheMutex := []

/-- Modelled from the spec: `publish_success(value)` is performed by the
ProgramManager (outside this header): it stores the built value, points the
ready pointer at it, sets the state to `Done` and notifies all waiters. -/
def publishSuccess {T : Type} (br : BuildResult T) (v : T) : BuildResult T :=
  { br with Val := v, Ptr := some v, State := BS_Done }

/-- Modelled from the spec: `publish_failure(message, code)` is performed by
the ProgramManager (outside this header): it fills the error from the
caught exception, sets the state to `Failed` and notifies all waiters. -/
def publishFailure {T : Type} (br : BuildResult T) (msg : String) (code : Int) :
    BuildResult T :=
  { br with Error := { Msg := msg, Code := code }, State := BS_Failed }

/-- Presence of a full key in the program cache map. -/
def containsProgram (c : ProgramCache) (k : ProgramCacheKeyT) : Bool :=
  (mapFind c.Cache k).isSome

/-- Presence of a (program handle, kernel name) pair in the per-program
kernel cache. -/
def containsKernel (kc : KernelCacheT) (q : PiProgram × String) : Bool :=
  (mapFind ((mapFind kc q.1).getD []) q.2).isSome

theorem mapFind_mapSet_self {K V : Type} [DecidableEq K] (m : List (K × V))
    (k : K) (v : V) : mapFind (mapSet m k v) k = some v := by
  induction m with
  | nil => simp [mapSet, mapFind]
  | cons e rest ih =>
      obtain ⟨k0, v0⟩ := e
      by_cases h : k0 = k
      · simp [mapSet, h, mapFind]
      · simp [mapSet, h, mapFind, ih]

theorem mapFind_mapSet_ne {K V : Type} [DecidableEq K] (m : List (K × V))
    {k1 k : K} (v : V) (h : k1 ≠ k) :
    mapFind (mapSet m k1 v) k = mapFind m k := by
  induction m with
  | nil => simp [mapSet, mapFind, h]
  | cons e rest ih =>
      obtain ⟨k0, v0⟩ := e
      by_cases h0 : k0 = k1
      · subst h0
        simp [mapSet, mapFind, h]
      · simp [mapSet, h0, mapFind, ih]

theorem mapSet_find_eq {K V : Type} [DecidableEq K] (m : List (K × V))
    {k : K} {v : V} (h : mapFind m k = some v) : mapSet m k v = m := by
  induction m with
  | nil => simp [mapFind] at h
  | cons e rest ih =>
      obtain ⟨k0, v0⟩ := e
      by_cases h0 : k0 = k
      · subst h0
        simp [mapFind] at h
        subst h
        simp [mapSet]
      · rw [mapFind, if_neg h0] at h
        simp [mapSet, h0, ih h]

theorem getOrInsertProgram_present {c : ProgramCache} {k : ProgramCacheKeyT}
    {br : ProgramWithBuildStateT} (h : mapFind c.Cache k = some br) :
    getOrInsertProgram c k = (c, br, false) := by
  simp [getOrInsertProgram, mapEmplace, h]

theorem getOrInsertProgram_absent {c : ProgramCache} {k : ProgramCacheKeyT}
    (h : mapFind c.Cache k = none) :
    getOrInsertProgram c k =
      ({ Cache := (k, freshProgramEntry) :: c.Cache,
         KeyMap := (progCommonKey k, k) :: c.KeyMap },
       freshProgramEntry, true) := by
  simp [getOrInsertProgram, mapEmplace, h]

theorem getOrInsertProgram_flag (c : ProgramCache) (k : ProgramCacheKeyT) :
    (getOrInsertProgram c k).2.2 = !containsProgram c k := by
  cases h : mapFind c.Cache k with
  | none => simp [getOrInsertProgram_absent h, containsProgram, h]
  | some br => simp [getOrInsertProgram_present h, containsProgram, h]

theorem containsProgram_step_self (c : ProgramCache) (k : ProgramCacheKeyT) :
    containsProgram (getOrInsertProgram c k).1 k = true := by
  cases h : mapFind c.Cache k with
  | none => simp [getOrInsertProgram_absent h, containsProgram, mapFind]
  | some br => simp [getOrInsertProgram_present h, containsProgram, h]

theorem containsProgram_step_other (c : ProgramCache)
    {k k1 : ProgramCacheKeyT} (h : k1 ≠ k) :
    containsProgram (getOrInsertProgram c k1).1 k = containsProgram c k := by
  cases h0 : mapFind c.Cache k1 with
  | none => simp [getOrInsertProgram_absent h0, containsProgram, mapFind, h]
  | some br => simp [getOrInsertProgram_present h0]

theorem getOrInsertKernel_present {kc : KernelCacheT} {p : PiProgram}
    {n : String} {br : BuildResult KernelArgMaskPairT}
    (h : mapFind ((mapFind kc p).getD []) n = some br) :
    getOrInsertKernel kc p n = (kc, br, false) := by
  cases hp : mapFind kc p with
  | none => rw [hp] at h; simp [mapFind] at h
  | some inner =>
      rw [hp] at h
      simp only [Option.getD_some] at h
      simp [getOrInsertKernel, hp, mapEmplace, h, mapSet_find_eq _ hp]

theorem getOrInsertKernel_absent {kc : KernelCacheT} {p : PiProgram}
    {n : String} (h : mapFind ((mapFind kc p).getD []) n = none) :
    getOrInsertKernel kc p n =
      (mapSet kc p ((n, freshKernelEntry) :: (mapFind kc p).getD []),
       freshKernelEntry, true) := by
  simp [getOrInsertKernel, mapEmplace, h]

theorem getOrInsertKernel_flag (kc : KernelCacheT) (q : PiProgram × String) :
    (getOrInsertKernel kc q.1 q.2).2.2 = !containsKernel kc q := by
  cases h : mapFind ((mapFind kc q.1).getD []) q.2 with
  | none => simp [getOrInsertKernel_absent h, containsKernel, h]
  | some br => simp [getOrInsertKernel_present h, containsKernel, h]

theorem containsKernel_step_self (kc : KernelCacheT) (q : PiProgram × String) :
    containsKernel (getOrInsertKernel kc q.1 q.2).1 q = true := by
  cases h : mapFind ((mapFind kc q.1).getD []) q.2 with
  | none =>
      simp [getOrInsertKernel_absent h, containsKernel, mapFind_mapSet_self,
            mapFind]
  | some br => simp [getOrInsertKernel_present h, containsKernel, h]

theorem containsKernel_step_other (kc : KernelCacheT)
    {q q1 : PiProgram × String} (h : q1 ≠ q) :
    containsKernel (getOrInsertKernel kc q1.1 q1.2).1 q = containsKernel kc q := by
  obtain ⟨p, n⟩ := q
  obtain ⟨p1, n1⟩ := q1
  by_cases hp : p1 = p
  · subst hp
    have hn : n1 ≠ n := fun hn => h (by rw [hn])
    cases h0 : mapFind ((mapFind kc p1).getD []) n1 with
    | none =>
        simp [getOrInsertKernel_absent h0, containsKernel,
              mapFind_mapSet_self, mapFind, hn]
    | some br => simp [getOrInsertKernel_present h0]
  · cases h0 : mapFind ((mapFind kc p1).getD []) n1 with
    | none =>
        simp [getOrInsertKernel_absent h0, containsKernel,
              mapFind_mapSet_ne _ _ hp]
    | some br => simp [getOrInsertKernel_present h0]

/-- The sub-sequence of `was_freshly_inserted` flags observed by the calls
for one fixed key, inside a mixed sequence of get-or-insert calls executed
left to right by `step` with per-call flag `flag`. -/
def flagsAt {σ κ : Type} [DecidableEq κ] (step : σ → κ → σ)
    (flag : σ → κ → Bool) : σ → List κ → κ → List Bool
  | _, [], _ => []
  | s, k0 :: ks, k =>
      if k0 = k then flag s k0 :: flagsAt step flag (step s k0) ks k
      else flagsAt step flag (step s k0) ks k

theorem flagsAt_present {σ κ : Type} [DecidableEq κ] (step : σ → κ → σ)
    (flag pres : σ → κ → Bool)
    (hflag : ∀ s k, flag s k = !pres s k)
    (hstep : ∀ s k, pres (step s k) k = true)
    (hother : ∀ s k k1, k1 ≠ k → pres (step s k1) k = pres s k)
    (s : σ) (ks : List κ) (k : κ) (hp : pres s k = true) :
    flagsAt step flag s ks k =
      List.replicate (ks.countP fun x => decide (x = k)) false := by
  induction ks generalizing s with
  | nil => simp [flagsAt]
  | cons k0 ks ih =>
      by_cases h : k0 = k
      · subst h
        simp [flagsAt, List.countP_cons, hflag, hp, ih _ (hstep s k0),
              List.replicate_succ]
      · simp [flagsAt, h, List.countP_cons, ih _ ((hother s k k0 h).trans hp)]

theorem flagsAt_absent {σ κ : Type} [DecidableEq κ] (step : σ → κ → σ)
    (flag pres : σ → κ → Bool)
    (hflag : ∀ s k, flag s k = !pres s k)
    (hstep : ∀ s k, pres (step s k) k = true)
    (hother : ∀ s k k1, k1 ≠ k → pres (step s k1) k = pres s k)
    (s : σ) (ks : List κ) (k : κ) (hp : pres s k = false) :
    flagsAt step flag s ks k =
      if (ks.countP fun x => decide (x = k)) = 0 then []
      else true :: List.replicate ((ks.countP fun x => decide (x = k)) - 1)
        false := by
  induction ks generalizing s with
  | nil => simp [flagsAt]
  | cons k0 ks ih =>
      by_cases h : k0 = k
      · subst h
        simp [flagsAt, List.countP_cons, hflag, hp,
              flagsAt_present step flag pres hflag hstep hother _ ks k0
                (hstep s k0)]
      · simp [flagsAt, h, List.countP_cons, ih _ ((hother s k k0 h).trans hp)]

/-- One `getOrInsertProgram` call, state part. -/
def progStep (c : ProgramCache) (k : ProgramCacheKeyT) : ProgramCache :=
  (getOrInsertProgram c k).1

/-- One `getOrInsertProgram` call, `was_freshly_inserted` part. -/
def progFlag (c : ProgramCache) (k : ProgramCacheKeyT) : Bool :=
  (getOrInsertProgram c k).2.2

/-- One `getOrInsertKernel` call, state part. -/
def kernStep (kc : KernelCacheT) (q : PiProgram × String) : KernelCacheT :=
  (getOrInsertKernel kc q.1 q.2).1

/-- One `getOrInsertKernel` call, `was_freshly_inserted` part. -/
def kernFlag (kc : KernelCacheT) (q : PiProgram × String) : Bool :=
  (getOrInsertKernel kc q.1 q.2).2.2

/-- A sample program cache key: bytes `[1, 2]`, module token `7`, device `3`,
build options `"-O2"`. -/
def sampleProgKey : ProgramCacheKeyT := (([1, 2], 7), (3, "-O2"))

/-- A second sample program cache key differing only in the options. -/
def sampleProgKey2 : ProgramCacheKeyT := (([1, 2], 7), (3, "-O0"))

/-- C1: get-or-insert returns the existing entry with
`was_freshly_inserted = false` and leaves the cache unchanged when the key
is already mapped (for program keys and for (program, kernel-name) pairs
alike), and otherwise inserts and returns a fresh `BuildResult` in state
`BS_InProgress` with a null ready pointer together with
`was_freshly_inserted = true`; consequently, in any sequence of
get-or-insert calls, for a key absent at the start exactly the first call
for that key observes `was_freshly_inserted = true`. -/
theorem getOrInsert_first_insert_unique :
    (freshProgramEntry.Ptr = none ∧ freshProgramEntry.State = BS_InProgress ∧
     freshKernelEntry.Ptr = none ∧ freshKernelEntry.State = BS_InProgress) ∧
    (∀ (c : ProgramCache) (k : ProgramCacheKeyT)
        (br : ProgramWithBuildStateT),
        mapFind c.Cache k = some br → getOrInsertProgram c k = (c, br, false)) ∧
    (∀ (c : ProgramCache) (k : ProgramCacheKeyT),
        mapFind c.Cache k = none →
        getOrInsertProgram c k =
          ({ Cache := (k, freshProgramEntry) :: c.Cache,
             KeyMap := (progCommonKey k, k) :: c.KeyMap },
           freshProgramEntry, true)) ∧
    (∀ (kc : KernelCacheT) (p : PiProgram) (n : String)
        (br : BuildResult KernelArgMaskPairT),
        mapFind ((mapFind kc p).getD []) n = some br →
        getOrInsertKernel kc p n = (kc, br, false)) ∧
    (∀ (kc : KernelCacheT) (p : PiProgram) (n : String),
        mapFind ((mapFind kc p).getD []) n = none →
        (getOrInsertKernel kc p n).2 = (freshKernelEntry, true)) ∧
    (∀ (c : ProgramCache) (ks : List ProgramCacheKeyT) (k : ProgramCacheKeyT),
        containsProgram c k = false →
        flagsAt progStep progFlag c ks k =
          if (ks.countP fun x => decide (x = k)) = 0 then []
          else true ::
            List.replicate ((ks.countP fun x => decide (x = k)) - 1) false) ∧
    (∀ (kc : KernelCacheT) (qs : List (PiProgram × String))
        (q : PiProgram × String),
        containsKernel kc q = false →
        flagsAt kernStep kernFlag kc qs q =
          if (qs.countP fun x => decide (x = q)) = 0 then []
          else true ::
            List.replicate ((qs.countP fun x => decide (x = q)) - 1) false) := by
  refine ⟨⟨rfl, rfl, rfl, rfl⟩, ?_, ?_, ?_, ?_, ?_, ?_⟩
  · exact fun c k br h => getOrInsertProgram_present h
  · exact fun c k h => getOrInsertProgram_absent h
  · exact fun kc p n br h => getOrInsertKernel_present h
  · intro kc p n h
    rw [getOrInsertKernel_absent h]
  · intro c ks k h
    exact flagsAt_absent progStep progFlag containsProgram
      getOrInsertProgram_flag containsProgram_step_self
      (fun s k k1 h1 => containsProgram_step_other s h1) c ks k h
  · intro kc qs q h
    exact flagsAt_absent kernStep kernFlag containsKernel
      getOrInsertKernel_flag containsKernel_step_self
      (fun s q q1 h1 => containsKernel_step_other s h1) kc qs q h

/-- Witness for C1 at concrete inputs: inserting `sampleProgKey` into the
empty cache is fresh, and two successive calls for it observe the flags
`[true, false]`. -/
theorem getOrInsert_first_insert_unique_witness :
    getOrInsertProgram ProgramCache.empty sampleProgKey =
      ({ Cache := [(sampleProgKey, freshProgramEntry)],
         KeyMap := [((7, 3), sampleProgKey)] }, freshProgramEntry, true) ∧
    flagsAt progStep progFlag ProgramCache.empty
      [sampleProgKey, sampleProgKey] sampleProgKey = [true, false] := by
  constructor
  · exact getOrInsert_first_insert_unique.2.2.1 ProgramCache.empty
      sampleProgKey rfl
  · have h := getOrInsert_first_insert_unique.2.2.2.2.2.1 ProgramCache.empty
      [sampleProgKey, sampleProgKey] sampleProgKey rfl
    rw [h]
    decide

/-- C2: on an entry satisfying the documented invariant that the error is
filled in exactly when the build failed, `waitUntilBuilt` raises the
caller-specified exception carrying exactly the stored (message, code) pair
whenever the state is `BS_Failed`, and raises it only in that case; the
raised pair is determined by the entry, so every waiter on the same failed
entry receives the identical (message, code). -/
theorem waitUntilBuilt_failure_propagation :
    ∀ (T : Type) (br : BuildResult T),
      (br.Error.isFilledIn = true ↔ br.State = BS_Failed) →
      (br.State = BS_Failed →
        waitUntilBuilt br = Except.error (br.Error.Msg, br.Error.Code)) ∧
      (∀ msg code, waitUntilBuilt br = Except.error (msg, code) →
        br.State = BS_Failed ∧ msg = br.Error.Msg ∧ code = br.Error.Code) := by
  intro T br hwf
  constructor
  · intro hs
    simp [waitUntilBuilt, hwf.mpr hs]
  · intro msg code h
    by_cases hf : br.Error.isFilledIn
    · simp [waitUntilBuilt, hf] at h
      exact ⟨hwf.mp hf, h.1.symm, h.2.symm⟩
    · simp [waitUntilBuilt, hf] at h

/-- Witness for C2: a waiter on an entry failed with
`("bad SPIR-V", 7)` receives exactly that pair. -/
theorem waitUntilBuilt_failure_propagation_witness :
    waitUntilBuilt (publishFailure freshProgramEntry "bad SPIR-V" 7) =
      Except.error ("bad SPIR-V", 7) :=
  (waitUntilBuilt_failure_propagation PiProgram
    (publishFailure freshProgramEntry "bad SPIR-V" 7) (by decide)).1 rfl

/-- C3: a waiter that arrives when the entry state is already terminal
(`BS_Done` or `BS_Failed`) returns immediately with zero sleeps — the wait
predicate is checked under the entry mutex before first sleeping and after
every wakeup, so a notification issued before the waiter arrived is never
missed — and the wait only ever returns at an observation satisfying the
predicate. -/
theorem waitUntilBuilt_no_missed_wakeup :
    (∀ (T : Type) (br : BuildResult T) (wakeups : List (BuildResult T)),
        br.State = BS_Done ∨ br.State = BS_Failed →
        waitUntilBuiltPred br terminalStatePred wakeups = (0, some br)) ∧
    (∀ (α : Type) (Pred : α → Bool) (a r : α) (ws : List α) (n : Nat),
        condVarWaitLoop Pred a ws = (n, some r) → Pred r = true) := by
  constructor
  · intro T br ws h
    have hp : terminalStatePred br = true := by
      rcases h with h | h <;> simp [terminalStatePred, h]
    cases ws <;> simp [waitUntilBuiltPred, condVarWaitLoop, hp]
  · intro α Pred a r ws n h
    induction ws generalizing a n with
    | nil =>
        by_cases hp : Pred a
        · simp [condVarWaitLoop, hp] at h
          rw [← h.2]
          exact hp
        · simp [condVarWaitLoop, hp] at h
    | cons b rest ih =>
        by_cases hp : Pred a
        · simp [condVarWaitLoop, hp] at h
          rw [← h.2]
          exact hp
        · simp [condVarWaitLoop, hp] at h
          exact ih b (condVarWaitLoop Pred b rest).1 (by rw [← h.2])

/-- Witness for C3: a waiter arriving at an already-`Done` entry performs
zero sleeps and returns at once. -/
theorem waitUntilBuilt_no_missed_wakeup_witness :
    waitUntilBuiltPred (publishSuccess freshProgramEntry (some 4))
      terminalStatePred [] =
      (0, some (publishSuccess freshProgramEntry (some 4))) :=
  waitUntilBuilt_no_missed_wakeup.1 PiProgram
    (publishSuccess freshProgramEntry (some 4)) [] (Or.inl rfl)

/-- The documented entry invariant: the atomic ready pointer is non-null
exactly when the state is `BS_Done`. -/
def readyInvariant {T : Type} (br : BuildResult T) : Prop :=
  br.Ptr.isSome = true ↔ br.State = BS_Done

/-- C4: the ready pointer is non-null iff the state is `BS_Done`: freshly
inserted entries satisfy the invariant (null pointer, `BS_InProgress`),
publishing a success or a failure preserves it, `getOrInsertProgram`
preserves it for every entry of the cache, and a waiter observing `BS_Done`
with no error receives a non-null handle from `waitUntilBuilt`. -/
theorem ready_pointer_iff_done :
    readyInvariant freshProgramEntry ∧
    (∀ (T : Type) (br : BuildResult T) (v : T),
        readyInvariant (publishSuccess br v)) ∧
    (∀ (T : Type) (br : BuildResult T) (msg : String) (code : Int),
        readyInvariant br → br.State = BS_InProgress →
        readyInvariant (publishFailure br msg code)) ∧
    (∀ (c : ProgramCache) (k : ProgramCacheKeyT),
        (∀ e ∈ c.Cache, readyInvariant e.2) →
        ∀ e ∈ (getOrInsertProgram c k).1.Cache, readyInvariant e.2) ∧
    (∀ (T : Type) (br : BuildResult T),
        readyInvariant br → br.State = BS_Done →
        br.Error.isFilledIn = false →
        waitUntilBuilt br = Except.ok br.Ptr ∧ br.Ptr.isSome = true) := by
  refine ⟨?_, ?_, ?_, ?_, ?_⟩
  · simp [readyInvariant, freshProgramEntry, BuildResult.make]
  · intro T br v
    simp [readyInvariant, publishSuccess]
  · intro T br msg code hInv hState
    rw [readyInvariant, hState] at hInv
    simp at hInv
    simp [readyInvariant, publishFailure, hInv]
  · intro c k h e he
    cases h0 : mapFind c.Cache k with
    | none =>
        rw [getOrInsertProgram_absent h0] at he
        rcases List.mem_cons.mp he with he | he
        · rw [he]
          simp [readyInvariant, freshProgramEntry, BuildResult.make]
        · exact h e he
    | some br =>
        rw [getOrInsertProgram_present h0] at he
        exact h e he
  · intro T br hInv hState hErr
    exact ⟨by simp [waitUntilBuilt, hErr], hInv.mpr hState⟩

/-- Witness for C4: publishing a failure on a fresh entry keeps the
invariant, and a waiter on a successfully published entry gets the non-null
handle. -/
theorem ready_pointer_iff_done_witness :
    readyInvariant (publishFailure freshProgramEntry "boom" 7) ∧
    waitUntilBuilt (publishSuccess freshProgramEntry (some 3)) =
      Except.ok (some (some 3)) := by
  constructor
  · exact ready_pointer_iff_done.2.2.1 PiProgram freshProgramEntry "boom" 7
      ready_pointer_iff_done.1 rfl
  · exact (ready_pointer_iff_done.2.2.2.2 PiProgram
      (publishSuccess freshProgramEntry (some 3))
      (ready_pointer_iff_done.2.1 PiProgram freshProgramEntry (some 3))
      rfl rfl).1

theorem countP_key_eq_zero {K V : Type} [DecidableEq K] {m : List (K × V)}
    {k : K} (h : mapFind m k = none) :
    (m.countP fun e => decide (e.1 = k)) = 0 := by
  induction m with
  | nil => simp
  | cons e rest ih =>
      obtain ⟨k0, v0⟩ := e
      rw [mapFind] at h
      by_cases h0 : k0 = k
      · rw [if_pos h0] at h
        exact absurd h (by simp)
      · rw [if_neg h0] at h
        simp [List.countP_cons, h0, ih h]

/-- C5: `saveKernel` inserts only when the fast-path key is absent and
silently discards the new value otherwise; hence after
`saveKernel key v1; saveKernel key v2` starting from a cache without the
key, the cache holds exactly one entry for the key, carrying `v1`, and
repeating a `saveKernel` is idempotent. -/
theorem saveKernel_first_writer_wins :
    (∀ (fc : KernelFastCacheT) (k : KernelFastCacheKeyT)
        (v v0 : KernelFastCacheValT),
        mapFind fc k = some v0 → saveKernel fc k v = fc) ∧
    (∀ (fc : KernelFastCacheT) (k : KernelFastCacheKeyT)
        (v : KernelFastCacheValT),
        mapFind fc k = none → saveKernel fc k v = (k, v) :: fc) ∧
    (∀ (fc : KernelFastCacheT) (k : KernelFastCacheKeyT)
        (v : KernelFastCacheValT),
        saveKernel (saveKernel fc k v) k v = saveKernel fc k v) ∧
    (∀ (fc : KernelFastCacheT) (k : KernelFastCacheKeyT)
        (v1 v2 : KernelFastCacheValT),
        mapFind fc k = none →
        saveKernel (saveKernel fc k v1) k v2 = (k, v1) :: fc ∧
        mapFind (saveKernel (saveKernel fc k v1) k v2) k = some v1 ∧
        ((saveKernel (saveKernel fc k v1) k v2).countP
            fun e => decide (e.1 = k)) = 1) := by
  have habs : ∀ (fc : KernelFastCacheT) (k : KernelFastCacheKeyT)
      (v : KernelFastCacheValT),
      mapFind fc k = none → saveKernel fc k v = (k, v) :: fc := by
    intro fc k v h
    simp [saveKernel, mapEmplace, h]
  have hpres : ∀ (fc : KernelFastCacheT) (k : KernelFastCacheKeyT)
      (v v0 : KernelFastCacheValT),
      mapFind fc k = some v0 → saveKernel fc k v = fc := by
    intro fc k v v0 h
    simp [saveKernel, mapEmplace, h]
  refine ⟨hpres, habs, ?_, ?_⟩
  · intro fc k v
    cases h : mapFind fc k with
    | none =>
        rw [habs fc k v h, hpres _ k v v (by simp [mapFind])]
    | some v0 =>
        rw [hpres fc k v v0 h, hpres fc k v v0 h]
  · intro fc k v1 v2 h
    have h1 : saveKernel fc k v1 = (k, v1) :: fc := habs fc k v1 h
    have h2 : mapFind ((k, v1) :: fc) k = some v1 := by simp [mapFind]
    have h3 : saveKernel (saveKernel fc k v1) k v2 = (k, v1) :: fc := by
      rw [h1, hpres _ k v2 v1 h2]
    refine ⟨h3, by rw [h3]; exact h2, ?_⟩
    rw [h3]
    simp [List.countP_cons, countP_key_eq_zero h]

/-- Witness for C5: saving two values under one fresh key keeps the first. -/
theorem saveKernel_first_writer_wins_witness :
    saveKernel (saveKernel [] ([1], 2, 3, "m", "k") (some 10, none, none, some 20))
        ([1], 2, 3, "m", "k") (some 11, none, none, some 21) =
      [(([1], 2, 3, "m", "k"), (some 10, none, none, some 20))] :=
  (saveKernel_first_writer_wins.2.2.2 [] ([1], 2, 3, "m", "k")
    (some 10, none, none, some 20) (some 11, none, none, some 21) rfl).1

/-- C6: `tryToGetKernelFast` returns the stored quadruple exactly when the
key is present and the all-null tuple otherwise, and a `saveKernel` on an
absent key followed by `tryToGetKernelFast` round-trips the value. -/
theorem tryToGetKernelFast_lookup_roundtrip :
    (∀ (fc : KernelFastCacheT) (k : KernelFastCacheKeyT)
        (v : KernelFastCacheValT),
        mapFind fc k = some v → tryToGetKernelFast fc k = v) ∧
    (∀ (fc : KernelFastCacheT) (k : KernelFastCacheKeyT),
        mapFind fc k = none →
        tryToGetKernelFast fc k = (none, none, none, none)) ∧
    (∀ (fc : KernelFastCacheT) (k : KernelFastCacheKeyT)
        (v : KernelFastCacheValT),
        mapFind fc k = none →
        tryToGetKernelFast (saveKernel fc k v) k = v) := by
  refine ⟨?_, ?_, ?_⟩
  · intro fc k v h
    simp [tryToGetKernelFast, h]
  · intro fc k h
    simp [tryToGetKernelFast, h]
  · intro fc k v h
    simp [tryToGetKernelFast, saveKernel, mapEmplace, h, mapFind]

/-- Witness for C6: a lookup after saving under a fresh key returns the
saved quadruple, and a lookup in the empty cache returns the null tuple. -/
theorem tryToGetKernelFast_lookup_roundtrip_witness :
    tryToGetKernelFast
        (saveKernel [] ([1], 2, 3, "m", "k") (some 10, none, none, some 20))
        ([1], 2, 3, "m", "k") = (some 10, none, none, some 20) ∧
    tryToGetKernelFast [] ([1], 2, 3, "m", "k") = (none, none, none, none) :=
  ⟨tryToGetKernelFast_lookup_roundtrip.2.2 [] ([1], 2, 3, "m", "k")
    (some 10, none, none, some 20) rfl,
   tryToGetKernelFast_lookup_roundtrip.2.1 [] ([1], 2, 3, "m", "k") rfl⟩

/-- C7: when `getOrInsertProgram` freshly inserts a key it records exactly
one secondary-index entry mapping the common key — the (module identity
token, target device) pair extracted from the full key — to the full key;
when the key already existed, no secondary-index entry is added. -/
theorem getOrInsertProgram_keymap_secondary_index :
    (∀ k : ProgramCacheKeyT, progCommonKey k = (k.1.2, k.2.1)) ∧
    (∀ (c : ProgramCache) (k : ProgramCacheKeyT),
        containsProgram c k = false →
        (getOrInsertProgram c k).1.KeyMap = (progCommonKey k, k) :: c.KeyMap) ∧
    (∀ (c : ProgramCache) (k : ProgramCacheKeyT),
        containsProgram c k = true →
        (getOrInsertProgram c k).1.KeyMap = c.KeyMap) := by
  refine ⟨fun k => rfl, ?_, ?_⟩
  · intro c k h
    cases h0 : mapFind c.Cache k with
    | none => rw [getOrInsertProgram_absent h0]
    | some br =>
        rw [containsProgram, h0] at h
        simp at h
  · intro c k h
    cases h0 : mapFind c.Cache k with
    | none =>
        rw [containsProgram, h0] at h
        simp at h
    | some br => rw [getOrInsertProgram_present h0]

/-- Witness for C7: freshly inserting `sampleProgKey` into the empty cache
records the single secondary-index entry `((7, 3), sampleProgKey)`. -/
theorem getOrInsertProgram_keymap_secondary_index_witness :
    (getOrInsertProgram ProgramCache.empty sampleProgKey).1.KeyMap =
      [((7, 3), sampleProgKey)] :=
  getOrInsertProgram_keymap_secondary_index.2.1 ProgramCache.empty
    sampleProgKey rfl

/-- C8: two program cache keys agreeing on module bytes, identity token and
device but differing in the build-options string are distinct keys, and
each is fresh on its first request. -/
theorem distinct_build_options_distinct_entries :
    ∀ (c : ProgramCache) (Bytes : SerializedObj) (Tok : Nat) (Dev : PiDevice)
      (o1 o2 : String), o1 ≠ o2 →
      containsProgram c ((Bytes, Tok), (Dev, o1)) = false →
      containsProgram c ((Bytes, Tok), (Dev, o2)) = false →
      (((Bytes, Tok), (Dev, o1)) : ProgramCacheKeyT) ≠
        ((Bytes, Tok), (Dev, o2)) ∧
      (getOrInsertProgram c ((Bytes, Tok), (Dev, o1))).2.2 = true ∧
      (getOrInsertProgram (getOrInsertProgram c ((Bytes, Tok), (Dev, o1))).1
          ((Bytes, Tok), (Dev, o2))).2.2 = true := by
  intro c Bytes Tok Dev o1 o2 hne h1 h2
  have hkey : (((Bytes, Tok), (Dev, o1)) : ProgramCacheKeyT) ≠
      ((Bytes, Tok), (Dev, o2)) := by
    intro h
    exact hne (congrArg (fun k => k.2.2) h)
  refine ⟨hkey, ?_, ?_⟩
  · simp [getOrInsertProgram_flag, h1]
  · have hpres : containsProgram
        (getOrInsertProgram c ((Bytes, Tok), (Dev, o1))).1
        ((Bytes, Tok), (Dev, o2)) = false := by
      rw [containsProgram_step_other c hkey]
      exact h2
    simp [getOrInsertProgram_flag, hpres]

/-- Witness for C8: `sampleProgKey` and `sampleProgKey2` differ only in the
options string and both insert freshly into the empty cache. -/
theorem distinct_build_options_distinct_entries_witness :
    sampleProgKey ≠ sampleProgKey2 ∧
    (getOrInsertProgram ProgramCache.empty sampleProgKey).2.2 = true ∧
    (getOrInsertProgram (getOrInsertProgram ProgramCache.empty sampleProgKey).1
        sampleProgKey2).2.2 = true :=
  distinct_build_options_distinct_entries ProgramCache.empty [1, 2] 7 3
    "-O2" "-O0" (by decide) rfl rfl

/-- C9 counterexample: the body of `reset()` acquires no mutex at all, so it
does not acquire the three cache mutexes in the order (program-cache,
kernel-cache, fast-path) as claimed. -/
theorem reset_locks_counterexample :
    resetLocks ≠ [CacheMutex.MProgramCacheMutex,
      CacheMutex.MKernelsPerProgramCacheMutex,
      CacheMutex.MKernelFastCacheMutex] := by
  decide

/-- C9 (amended): `reset()` replaces the program cache together with its
common-key secondary index, the kernel-per-program cache, and the fast-path
cache by empty containers while acquiring no mutex; afterwards every
subcache is empty. -/
theorem reset_clears_all_subcaches :
    ∀ s : CacheState,
      (reset s).MCachedPrograms = ProgramCache.empty ∧
      (reset s).MCachedPrograms.Cache = [] ∧
      (reset s).MCachedPrograms.KeyMap = [] ∧
      (reset s).MKernelsPerProgramCache = [] ∧
      (reset s).MKernelFastCache = [] ∧
      resetLocks = [] :=
  fun _ => ⟨rfl, rfl, rfl, rfl, rfl, rfl⟩

theorem mapFind_eq_none_iff {K V : Type} [DecidableEq K] (m : List (K × V))
    (k : K) : mapFind m k = none ↔ k ∉ m.map Prod.fst := by
  induction m with
  | nil => simp [mapFind]
  | cons e rest ih =>
      obtain ⟨k0, v0⟩ := e
      by_cases h : k0 = k
      · subst h
        simp [mapFind]
      · simp [mapFind, h, Ne.symm h, ih]

theorem mapFind_isSome_of_mem_keys {K V : Type} [DecidableEq K]
    {m : List (K × V)} {k : K} (h : k ∈ m.map Prod.fst) :
    (mapFind m k).isSome = true := by
  cases h0 : mapFind m k with
  | none => exact absurd h ((mapFind_eq_none_iff m k).mp h0)
  | some v => rfl

theorem countP_key_nodup {K V : Type} [DecidableEq K] (m : List (K × V))
    (k : K) (h : (m.map Prod.fst).Nodup) :
    (m.countP fun e => decide (e.1 = k)) =
      if (mapFind m k).isSome then 1 else 0 := by
  induction m with
  | nil => simp [mapFind]
  | cons e rest ih =>
      obtain ⟨k0, v0⟩ := e
      simp only [List.map_cons, List.nodup_cons] at h
      obtain ⟨hk0, hrest⟩ := h
      by_cases h0 : k0 = k
      · subst h0
        have hnone : mapFind rest k0 = none :=
          (mapFind_eq_none_iff rest k0).mpr hk0
        simp [List.countP_cons, mapFind, countP_key_eq_zero hnone]
      · simp [List.countP_cons, h0, mapFind, ih hrest]

/-- The program cache and its secondary index in sync: the `KeyMap` is
exactly the image of the cache entries under full key → (common key,
full key), and the cache keys are duplicate-free. -/
def progCacheWellFormed (pc : ProgramCache) : Prop :=
  pc.KeyMap = pc.Cache.map (fun e => (progCommonKey e.1, e.1)) ∧
  (pc.Cache.map Prod.fst).Nodup

theorem progCacheWellFormed_empty : progCacheWellFormed ProgramCache.empty :=
  ⟨rfl, by simp [ProgramCache.empty]⟩

theorem progCacheWellFormed_step (pc : ProgramCache) (k : ProgramCacheKeyT)
    (h : progCacheWellFormed pc) :
    progCacheWellFormed (getOrInsertProgram pc k).1 := by
  obtain ⟨hsync, hnodup⟩ := h
  cases h0 : mapFind pc.Cache k with
  | some br =>
      rw [getOrInsertProgram_present h0]
      exact ⟨hsync, hnodup⟩
  | none =>
      rw [getOrInsertProgram_absent h0]
      refine ⟨by simp [hsync], ?_⟩
      simp only [List.map_cons, List.nodup_cons]
      exact ⟨(mapFind_eq_none_iff pc.Cache k).mp h0, hnodup⟩

/-- An operation on the whole cache object, for sequences mixing
`getOrInsertProgram` calls with `reset()`. -/
inductive CacheOp where
  | getProgram (k : ProgramCacheKeyT)
  | resetAll

/-- Apply one operation to the cache object. -/
def applyOp (s : CacheState) : CacheOp → CacheState
  | CacheOp.getProgram k =>
      { s with MCachedPrograms := (getOrInsertProgram s.MCachedPrograms k).1 }
  | CacheOp.resetAll => reset s

/-- Run a sequence of operations left to right. -/
def runOps (s : CacheState) (ops : List CacheOp) : CacheState :=
  ops.foldl applyOp s

/-- C10: after any sequence of `getOrInsertProgram` and `reset` calls the
program cache and its secondary index stay in sync: the `KeyMap` holds
exactly one entry per program cache entry, mapping that entry's common key
to its full key, and the two maps always have equal size. -/
theorem program_cache_keymap_in_sync :
    progCacheWellFormed ProgramCache.empty ∧
    (∀ (s : CacheState) (ops : List CacheOp),
        progCacheWellFormed s.MCachedPrograms →
        progCacheWellFormed (runOps s ops).MCachedPrograms) ∧
    (∀ pc : ProgramCache, progCacheWellFormed pc →
        pc.KeyMap.length = pc.Cache.length) ∧
    (∀ (pc : ProgramCache) (e : CommonProgramKeyT × ProgramCacheKeyT),
        progCacheWellFormed pc → e ∈ pc.KeyMap →
        e.1 = progCommonKey e.2 ∧ containsProgram pc e.2 = true) ∧
    (∀ (pc : ProgramCache) (k : ProgramCacheKeyT), progCacheWellFormed pc →
        (pc.KeyMap.countP fun e => decide (e.2 = k)) =
          if containsProgram pc k then 1 else 0) := by
  refine ⟨progCacheWellFormed_empty, ?_, ?_, ?_, ?_⟩
  · intro s ops h
    induction ops generalizing s with
    | nil => exact h
    | cons op rest ih =>
        cases op with
        | getProgram k => exact ih _ (progCacheWellFormed_step _ k h)
        | resetAll => exact ih _ progCacheWellFormed_empty
  · intro pc h
    simp [h.1]
  · intro pc e h he
    rw [h.1] at he
    obtain ⟨a, ha, hae⟩ := List.mem_map.mp he
    subst hae
    refine ⟨rfl, ?_⟩
    rw [containsProgram]
    exact mapFind_isSome_of_mem_keys (List.mem_map_of_mem Prod.fst ha)
  · intro pc k h
    rw [h.1, List.countP_map]
    exact countP_key_nodup pc.Cache k h.2

/-- Witness for C10: running insert, reset, insert from the empty cache
object keeps the program cache well formed, and after one fresh insert the
secondary index holds exactly one entry for the inserted key. -/
theorem program_cache_keymap_in_sync_witness :
    progCacheWellFormed
      (runOps { MCachedPrograms := ProgramCache.empty,
                MKernelsPerProgramCache := [], MKernelFastCache := [] }
        [CacheOp.getProgram sampleProgKey, CacheOp.resetAll,
         CacheOp.getProgram sampleProgKey2]).MCachedPrograms ∧
    ((getOrInsertProgram ProgramCache.empty sampleProgKey).1.KeyMap.countP
        fun e => decide (e.2 = sampleProgKey)) = 1 := by
  constructor
  · exact program_cache_keymap_in_sync.2.1 _ _ ⟨rfl, by simp [ProgramCache.empty]⟩
  · have h := program_cache_keymap_in_sync.2.2.2.2
      (getOrInsertProgram ProgramCache.empty sampleProgKey).1 sampleProgKey
      ⟨rfl, by decide⟩
    rw [h]
    decide

end KernelProgramCache
